import Mathlib

/-!
Verification of the discord-md library: a shallow embedding of its AST
(src/ast.rs), serializer (src/generate.rs) and parser (src/parser/mod.rs,
src/parser/util.rs) together with proofs about the embedded definitions.

The parser is embedded with an explicit fuel parameter so that every
definition is executable by the kernel; `parse` instantiates the fuel at a
bound proved sufficient for all inputs.
-/

/-- The markdown element AST, from `MarkdownElement` and the per-variant
structs in src/ast.rs.  Composite variants hold the child element
collection directly (the Rust `MarkdownElementCollection` newtype over
`Vec<MarkdownElement>` becomes `List MarkdownElement`). -/
inductive MarkdownElement where
  | Plain (content : String)
  | ItalicsStar (content : List MarkdownElement)
  | ItalicsUnderscore (content : List MarkdownElement)
  | Bold (content : List MarkdownElement)
  | Underline (content : List MarkdownElement)
  | Strikethrough (content : List MarkdownElement)
  | Spoiler (content : List MarkdownElement)
  | OneLineCode (content : String)
  | MultiLineCode (content : String) (language : Option String)
  | BlockQuote (content : List MarkdownElement)
  deriving Repr

/-- Embeds `MarkdownElementCollection` from src/ast.rs: an ordered sequence of
elements. -/
abbrev MarkdownElementCollection := List MarkdownElement

/-- Embeds `MarkdownDocument` from src/ast.rs: the root of the AST, owning one
element collection. -/
structure MarkdownDocument where
  content : MarkdownElementCollection
  deriving Repr

mutual

/-- Structural equality test on elements (Rust `#[derive(PartialEq, Eq)]`). -/
def beqElement : MarkdownElement → MarkdownElement → Bool
  | .Plain a, .Plain b => a == b
  | .ItalicsStar a, .ItalicsStar b => beqCollection a b
  | .ItalicsUnderscore a, .ItalicsUnderscore b => beqCollection a b
  | .Bold a, .Bold b => beqCollection a b
  | .Underline a, .Underline b => beqCollection a b
  | .Strikethrough a, .Strikethrough b => beqCollection a b
  | .Spoiler a, .Spoiler b => beqCollection a b
  | .OneLineCode a, .OneLineCode b => a == b
  | .MultiLineCode a la, .MultiLineCode b lb => a == b && la == lb
  | .BlockQuote a, .BlockQuote b => beqCollection a b
  | _, _ => false

/-- Structural equality test on collections. -/
def beqCollection : List MarkdownElement → List MarkdownElement → Bool
  | [], [] => true
  | a :: as, b :: bs => beqElement a b && beqCollection as bs
  | _, _ => false

end

mutual

theorem beqElement_iff : ∀ a b : MarkdownElement, beqElement a b = true ↔ a = b
  | .Plain _, .Plain _ => by simp [beqElement]
  | .ItalicsStar a, .ItalicsStar b => by simp [beqElement, beqCollection_iff a b]
  | .ItalicsUnderscore a, .ItalicsUnderscore b => by simp [beqElement, beqCollection_iff a b]
  | .Bold a, .Bold b => by simp [beqElement, beqCollection_iff a b]
  | .Underline a, .Underline b => by simp [beqElement, beqCollection_iff a b]
  | .Strikethrough a, .Strikethrough b => by simp [beqElement, beqCollection_iff a b]
  | .Spoiler a, .Spoiler b => by simp [beqElement, beqCollection_iff a b]
  | .OneLineCode _, .OneLineCode _ => by simp [beqElement]
  | .MultiLineCode _ _, .MultiLineCode _ _ => by simp [beqElement]
  | .BlockQuote a, .BlockQuote b => by simp [beqElement, beqCollection_iff a b]
  | .Plain _, .ItalicsStar _ => by simp [beqElement]
  | .Plain _, .ItalicsUnderscore _ => by simp [beqElement]
  | .Plain _, .Bold _ => by simp [beqElement]
  | .Plain _, .Underline _ => by simp [beqElement]
  | .Plain _, .Strikethrough _ => by simp [beqElement]
  | .Plain _, .Spoiler _ => by simp [beqElement]
  | .Plain _, .OneLineCode _ => by simp [beqElement]
  | .Plain _, .MultiLineCode _ _ => by simp [beqElement]
  | .Plain _, .BlockQuote _ => by simp [beqElement]
  | .ItalicsStar _, .Plain _ => by simp [beqElement]
  | .ItalicsStar _, .ItalicsUnderscore _ => by simp [beqElement]
  | .ItalicsStar _, .Bold _ => by simp [beqElement]
  | .ItalicsStar _, .Underline _ => by simp [beqElement]
  | .ItalicsStar _, .Strikethrough _ => by simp [beqElement]
  | .ItalicsStar _, .Spoiler _ => by simp [beqElement]
  | .ItalicsStar _, .OneLineCode _ => by simp [beqElement]
  | .ItalicsStar _, .MultiLineCode _ _ => by simp [beqElement]
  | .ItalicsStar _, .BlockQuote _ => by simp [beqElement]
  | .ItalicsUnderscore _, .Plain _ => by simp [beqElement]
  | .ItalicsUnderscore _, .ItalicsStar _ => by simp [beqElement]
  | .ItalicsUnderscore _, .Bold _ => by simp [beqElement]
  | .ItalicsUnderscore _, .Underline _ => by simp [beqElement]
  | .ItalicsUnderscore _, .Strikethrough _ => by simp [beqElement]
  | .ItalicsUnderscore _, .Spoiler _ => by simp [beqElement]
  | .ItalicsUnderscore _, .OneLineCode _ => by simp [beqElement]
  | .ItalicsUnderscore _, .MultiLineCode _ _ => by simp [beqElement]
  | .ItalicsUnderscore _, .BlockQuote _ => by simp [beqElement]
  | .Bold _, .Plain _ => by simp [beqElement]
  | .Bold _, .ItalicsStar _ => by simp [beqElement]
  | .Bold _, .ItalicsUnderscore _ => by simp [beqElement]
  | .Bold _, .Underline _ => by simp [beqElement]
  | .Bold _, .Strikethrough _ => by simp [beqElement]
  | .Bold _, .Spoiler _ => by simp [beqElement]
  | .Bold _, .OneLineCode _ => by simp [beqElement]
  | .Bold _, .MultiLineCode _ _ => by simp [beqElement]
  | .Bold _, .BlockQuote _ => by simp [beqElement]
  | .Underline _, .Plain _ => by simp [beqElement]
  | .Underline _, .ItalicsStar _ => by simp [beqElement]
  | .Underline _, .ItalicsUnderscore _ => by simp [beqElement]
  | .Underline _, .Bold _ => by simp [beqElement]
  | .Underline _, .Strikethrough _ => by simp [beqElement]
  | .Underline _, .Spoiler _ => by simp [beqElement]
  | .Underline _, .OneLineCode _ => by simp [beqElement]
  | .Underline _, .MultiLineCode _ _ => by simp [beqElement]
  | .Underline _, .BlockQuote _ => by simp [beqElement]
  | .Strikethrough _, .Plain _ => by simp [beqElement]
  | .Strikethrough _, .ItalicsStar _ => by simp [beqElement]
  | .Strikethrough _, .ItalicsUnderscore _ => by simp [beqElement]
  | .Strikethrough _, .Bold _ => by simp [beqElement]
  | .Strikethrough _, .Underline _ => by simp [beqElement]
  | .Strikethrough _, .Spoiler _ => by simp [beqElement]
  | .Strikethrough _, .OneLineCode _ => by simp [beqElement]
  | .Strikethrough _, .MultiLineCode _ _ => by simp [beqElement]
  | .Strikethrough _, .BlockQuote _ => by simp [beqElement]
  | .Spoiler _, .Plain _ => by simp [beqElement]
  | .Spoiler _, .ItalicsStar _ => by simp [beqElement]
  | .Spoiler _, .ItalicsUnderscore _ => by simp [beqElement]
  | .Spoiler _, .Bold _ => by simp [beqElement]
  | .Spoiler _, .Underline _ => by simp [beqElement]
  | .Spoiler _, .Strikethrough _ => by simp [beqElement]
  | .Spoiler _, .OneLineCode _ => by simp [beqElement]
  | .Spoiler _, .MultiLineCode _ _ => by simp [beqElement]
  | .Spoiler _, .BlockQuote _ => by simp [beqElement]
  | .OneLineCode _, .Plain _ => by simp [beqElement]
  | .OneLineCode _, .ItalicsStar _ => by simp [beqElement]
  | .OneLineCode _, .ItalicsUnderscore _ => by simp [beqElement]
  | .OneLineCode _, .Bold _ => by simp [beqElement]
  | .OneLineCode _, .Underline _ => by simp [beqElement]
  | .OneLineCode _, .Strikethrough _ => by simp [beqElement]
  | .OneLineCode _, .Spoiler _ => by simp [beqElement]
  | .OneLineCode _, .MultiLineCode _ _ => by simp [beqElement]
  | .OneLineCode _, .BlockQuote _ => by simp [beqElement]
  | .MultiLineCode _ _, .Plain _ => by simp [beqElement]
  | .MultiLineCode _ _, .ItalicsStar _ => by simp [beqElement]
  | .MultiLineCode _ _, .ItalicsUnderscore _ => by simp [beqElement]
  | .MultiLineCode _ _, .Bold _ => by simp [beqElement]
  | .MultiLineCode _ _, .Underline _ => by simp [beqElement]
  | .MultiLineCode _ _, .Strikethrough _ => by simp [beqElement]
  | .MultiLineCode _ _, .Spoiler _ => by simp [beqElement]
  | .MultiLineCode _ _, .OneLineCode _ => by simp [beqElement]
  | .MultiLineCode _ _, .BlockQuote _ => by simp [beqElement]
  | .BlockQuote _, .Plain _ => by simp [beqElement]
  | .BlockQuote _, .ItalicsStar _ => by simp [beqElement]
  | .BlockQuote _, .ItalicsUnderscore _ => by simp [beqElement]
  | .BlockQuote _, .Bold _ => by simp [beqElement]
  | .BlockQuote _, .Underline _ => by simp [beqElement]
  | .BlockQuote _, .Strikethrough _ => by simp [beqElement]
  | .BlockQuote _, .Spoiler _ => by simp [beqElement]
  | .BlockQuote _, .OneLineCode _ => by simp [beqElement]
  | .BlockQuote _, .MultiLineCode _ _ => by simp [beqElement]

theorem beqCollection_iff : ∀ a b : List MarkdownElement, beqCollection a b = true ↔ a = b
  | [], [] => by simp [beqCollection]
  | a :: as, b :: bs => by simp [beqCollection, beqElement_iff a b, beqCollection_iff as bs]
  | [], _ :: _ => by simp [beqCollection]
  | _ :: _, [] => by simp [beqCollection]

end

instance : DecidableEq MarkdownElement := fun a b =>
  decidable_of_iff (beqElement a b = true) (beqElement_iff a b)

instance : DecidableEq MarkdownDocument := fun a b =>
  match a, b with
  | ⟨x⟩, ⟨y⟩ =>
    if h : x = y then .isTrue (by rw [h]) else .isFalse (by simpa using h)

/-- Embeds `ToMarkdownStringOption` from src/generate.rs: the two rendering flags. -/
structure ToMarkdownStringOption where
  omit_format : Bool
  omit_spoiler : Bool
  deriving Repr, DecidableEq

/-- Embeds `ToMarkdownStringOption::new()` / `Default`: both flags false. -/
def ToMarkdownStringOption.new : ToMarkdownStringOption :=
  { omit_format := false, omit_spoiler := false }

/-- Rust `str::split('\n')` on the character list of a string: the pieces
between newline characters, empty pieces included (`""` splits to `[""]`). -/
def splitNl : List Char → List (List Char)
  | [] => [[]]
  | c :: rest =>
    if c = '\n' then [] :: splitNl rest
    else
      match splitNl rest with
      | l :: ls => (c :: l) :: ls
      | [] => [[c]]

/-- The line-quoting step of `BlockQuote`'s renderers in src/ast.rs and
src/generate.rs: split the rendered content on line breaks, put `"> "` in
front of every line, and join the lines back with line breaks. -/
def quoteLines (s : String) : String :=
  String.intercalate "\n" ((splitNl s.data).map (fun l => "> " ++ String.mk l))

mutual

/-- Embeds `ToMarkdownString for MarkdownElement` and the per-variant impls in
src/generate.rs. -/
def elementToMarkdownString : MarkdownElement → ToMarkdownStringOption → String
  | .Plain content, _ => content
  | .ItalicsStar content, option =>
    let c := collectionToMarkdownString content option
    if option.omit_format then c else "*" ++ c ++ "*"
  | .ItalicsUnderscore content, option =>
    let c := collectionToMarkdownString content option
    if option.omit_format then c else "_" ++ c ++ "_"
  | .Bold content, option =>
    let c := collectionToMarkdownString content option
    if option.omit_format then c else "**" ++ c ++ "**"
  | .Underline content, option =>
    let c := collectionToMarkdownString content option
    if option.omit_format then c else "__" ++ c ++ "__"
  | .Strikethrough content, option =>
    let c := collectionToMarkdownString content option
    if option.omit_format then c else "~~" ++ c ++ "~~"
  | .Spoiler content, option =>
    let c := collectionToMarkdownString content option
    if option.omit_spoiler then ""
    else if option.omit_format then c
    else "||" ++ c ++ "||"
  | .OneLineCode content, option =>
    if option.omit_format then content else "`" ++ content ++ "`"
  | .MultiLineCode content language, option =>
    if option.omit_format then content
    else "```" ++ language.getD "" ++ content ++ "```"
  | .BlockQuote content, option =>
    let c := collectionToMarkdownString content option
    if option.omit_format then c else quoteLines c

/-- Embeds `ToMarkdownString for MarkdownElementCollection` in src/generate.rs:
concatenation of the rendered elements. -/
def collectionToMarkdownString : List MarkdownElement → ToMarkdownStringOption → String
  | [], _ => ""
  | e :: rest, option =>
    elementToMarkdownString e option ++ collectionToMarkdownString rest option

end

/-- Embeds `ToMarkdownString for MarkdownDocument` in src/generate.rs. -/
def documentToMarkdownString (d : MarkdownDocument) (option : ToMarkdownStringOption) : String :=
  collectionToMarkdownString d.content option

mutual

/-- The `Display` implementations of src/ast.rs (`derive_more` format
strings on each struct, plus the handwritten impls for
`MarkdownElementCollection` and `BlockQuote`), i.e. what `to_string()`
returns. -/
def elementToString : MarkdownElement → String
  | .Plain content => content
  | .ItalicsStar content => "*" ++ collectionToString content ++ "*"
  | .ItalicsUnderscore content => "_" ++ collectionToString content ++ "_"
  | .Bold content => "**" ++ collectionToString content ++ "**"
  | .Underline content => "__" ++ collectionToString content ++ "__"
  | .Strikethrough content => "~~" ++ collectionToString content ++ "~~"
  | .Spoiler content => "||" ++ collectionToString content ++ "||"
  | .OneLineCode content => "`" ++ content ++ "`"
  | .MultiLineCode content language => "```" ++ language.getD "" ++ content ++ "```"
  | .BlockQuote content => quoteLines (collectionToString content)

/-- Embeds `Display for MarkdownElementCollection` in src/ast.rs. -/
def collectionToString : List MarkdownElement → String
  | [] => ""
  | e :: rest => elementToString e ++ collectionToString rest

end

/-- Embeds `Display for MarkdownDocument` (derived, forwards to the content
collection). -/
def documentToString (d : MarkdownDocument) : String :=
  collectionToString d.content

mutual

/-- Embeds `MarkdownElement::to_plain_string` in src/ast.rs (via each variant's
`to_plain_text`). -/
def elementToPlainString : MarkdownElement → String
  | .Plain content => content
  | .ItalicsStar content => collectionToPlainString content
  | .ItalicsUnderscore content => collectionToPlainString content
  | .Bold content => collectionToPlainString content
  | .Underline content => collectionToPlainString content
  | .Strikethrough content => collectionToPlainString content
  | .Spoiler content => collectionToPlainString content
  | .OneLineCode content => content
  | .MultiLineCode content _ => content
  | .BlockQuote content => collectionToPlainString content

/-- Embeds `MarkdownElementCollection::to_plain_string` in src/ast.rs. -/
def collectionToPlainString : List MarkdownElement → String
  | [] => ""
  | e :: rest => elementToPlainString e ++ collectionToPlainString rest

end

/-- Embeds `MarkdownDocument::to_plain_text` in src/ast.rs. -/
def documentToPlainText (d : MarkdownDocument) : String :=
  collectionToPlainString d.content

example :
    elementToMarkdownString (.Bold [.Plain "a", .ItalicsStar [.Plain "b"]])
      ToMarkdownStringOption.new = "**a*b***" := rfl

example :
    elementToMarkdownString (.BlockQuote [.Plain "x\ny"]) ToMarkdownStringOption.new
      = "> x\n> y" := rfl

example : elementToString (.BlockQuote [.Plain "x\ny"]) = "> x\n> y" := rfl

/-- Embeds `nom::bytes::complete::tag`: consume an exact character sequence or
fail. -/
def tagP (d i : List Char) : Option (List Char) :=
  if d.isPrefixOf i then some (i.drop d.length) else none

/-- Embeds `take_before` from src/parser/util.rs
(`recognize(many_till(anychar, peek(f)))`), specialised to a pure stop
condition: the shortest (possibly empty) prefix of the input such that the
condition holds on the remaining suffix; fails if no suffix satisfies it.
Returns (remaining input, consumed prefix). -/
def takeBefore0P (p : List Char → Bool) : List Char → Option (List Char × List Char)
  | [] => if p [] then some ([], []) else none
  | c :: cs =>
    if p (c :: cs) then some (c :: cs, [])
    else
      match takeBefore0P p cs with
      | some (rest, pre) => some (rest, c :: pre)
      | none => none

/-- Modelled from the spec: `take_before1`, imported by src/parser/mod.rs
but absent from src/parser/util.rs — "find the shortest (leftmost)
subsequent occurrence of the same delimiter; the span between must be
non-empty — if it is empty, or no closing delimiter exists, the matcher
fails".  It is `take_before` with the captured prefix verified non-empty,
matching the `ErrorKind::Verify` failures in the mod.rs tests. -/
def takeBefore1P (p : List Char → Bool) (i : List Char) : Option (List Char × List Char) :=
  match takeBefore0P p i with
  | some (rest, pre) => if pre = [] then none else some (rest, pre)
  | none => none

/-- Embeds `rest1` from src/parser/util.rs: the whole remaining input, failing if
it is empty. -/
def rest1 (i : List Char) : Option (List Char × List Char) :=
  if i = [] then none else some ([], i)

/-- Embeds `delimited(tag(d), take_before1(tag(d)), tag(d))`, the shared shape of
every delimited matcher in src/parser/mod.rs.  Returns (remaining input,
captured span). -/
def delimitedSpan (d i : List Char) : Option (List Char × List Char) :=
  match tagP d i with
  | none => none
  | some i₁ =>
    match takeBefore1P (fun s => d.isPrefixOf s) i₁ with
    | none => none
    | some (i₂, span) =>
      match tagP d i₂ with
      | none => none
      | some i₃ => some (i₃, span)

/-- The inner parser of `multi_line_code` in src/parser/mod.rs:
`pair(opt(terminated(alphanumeric1, peek(newline))), rest)` applied to the
captured span.  `alphanumeric1` takes the maximal non-empty run of ASCII
alphanumeric characters; `peek(newline)` requires the next character to be
a line break without consuming it. -/
def multiLineCodeBody (span : List Char) : MarkdownElement :=
  let lang := span.takeWhile Char.isAlphanum
  if lang ≠ [] ∧ (span.drop lang.length).head? = some '\n' then
    .MultiLineCode (String.mk (span.drop lang.length)) (some (String.mk lang))
  else
    .MultiLineCode (String.mk span) none

/-- First-success alternation on two alternatives (`nom::branch::alt`
between recoverable errors). -/
def alt2 {α : Type} (a b : Option α) : Option α :=
  match a with
  | some x => some x
  | none => b

mutual

/-- Embeds `markdown_element_not_plain` from src/parser/mod.rs: the alternation,
in source order, of `multi_line_code`, `one_line_code`, `italics_star`,
`italics_underscore`, `bold`, `underline`, `strikethrough`, `spoiler`.
Each styled matcher captures a delimited span and recursively parses it as
an element collection (`map_parser`). -/
def mdNotPlain : Nat → List Char → Option (List Char × MarkdownElement)
  | 0, _ => none
  | fuel + 1, i =>
    alt2
      (match delimitedSpan "```".data i with
        | some (rest, span) => some (rest, multiLineCodeBody span)
        | none => none) <|
    alt2
      (match delimitedSpan "`".data i with
        | some (rest, span) => some (rest, .OneLineCode (String.mk span))
        | none => none) <|
    alt2
      (match delimitedSpan "*".data i with
        | some (rest, span) =>
          match mdCollection fuel span with
          | some (_, elems) => some (rest, .ItalicsStar elems)
          | none => none
        | none => none) <|
    alt2
      (match delimitedSpan "_".data i with
        | some (rest, span) =>
          match mdCollection fuel span with
          | some (_, elems) => some (rest, .ItalicsUnderscore elems)
          | none => none
        | none => none) <|
    alt2
      (match delimitedSpan "**".data i with
        | some (rest, span) =>
          match mdCollection fuel span with
          | some (_, elems) => some (rest, .Bold elems)
          | none => none
        | none => none) <|
    alt2
      (match delimitedSpan "__".data i with
        | some (rest, span) =>
          match mdCollection fuel span with
          | some (_, elems) => some (rest, .Underline elems)
          | none => none
        | none => none) <|
    alt2
      (match delimitedSpan "~~".data i with
        | some (rest, span) =>
          match mdCollection fuel span with
          | some (_, elems) => some (rest, .Strikethrough elems)
          | none => none
        | none => none)
      (match delimitedSpan "||".data i with
        | some (rest, span) =>
          match mdCollection fuel span with
          | some (_, elems) => some (rest, .Spoiler elems)
          | none => none
        | none => none)

/-- Embeds `take_before0(markdown_element_not_plain)` as used by `plain` in
src/parser/mod.rs: the shortest prefix whose remainder starts a successful
styled-element match. -/
def mdTakeBefore0 : Nat → List Char → Option (List Char × List Char)
  | 0, _ => none
  | fuel + 1, i =>
    if (mdNotPlain fuel i).isSome then some (i, [])
    else
      match i with
      | [] => none
      | c :: cs =>
        match mdTakeBefore0 fuel cs with
        | some (rest, pre) => some (rest, c :: pre)
        | none => none

/-- Embeds `plain` from src/parser/mod.rs:
`map(alt((take_before0(markdown_element_not_plain), rest1)), Plain::new)`. -/
def mdPlain : Nat → List Char → Option (List Char × MarkdownElement)
  | 0, _ => none
  | fuel + 1, i =>
    match alt2 (mdTakeBefore0 fuel i) (rest1 i) with
    | some (rest, pre) => some (rest, .Plain (String.mk pre))
    | none => none

/-- Embeds `markdown_element` from src/parser/mod.rs:
`alt((markdown_element_not_plain, markdown_element_plain))`. -/
def mdElement : Nat → List Char → Option (List Char × MarkdownElement)
  | 0, _ => none
  | fuel + 1, i => alt2 (mdNotPlain fuel i) (mdPlain fuel i)

/-- Embeds `markdown_element_collection` from src/parser/mod.rs:
`many0(markdown_element)`.  As in `nom::multi::many0`, the loop stops with
success when the element parser fails, and the whole parse fails if an
iteration consumes nothing. -/
def mdCollection : Nat → List Char → Option (List Char × List MarkdownElement)
  | 0, _ => none
  | fuel + 1, i =>
    match mdElement fuel i with
    | none => some (i, [])
    | some (rest, e) =>
      if rest.length < i.length then
        match mdCollection fuel rest with
        | none => none
        | some (rest₂, elems) => some (rest₂, e :: elems)
      else none

end

/-- Embeds `markdown_document` from src/parser/mod.rs:
`map(markdown_element_collection, MarkdownDocument::new)`. -/
def markdownDocument (fuel : Nat) (i : List Char) : Option (List Char × MarkdownDocument) :=
  match mdCollection fuel i with
  | some (rest, elems) => some (rest, ⟨elems⟩)
  | none => none

/-- Embeds `parse` from src/lib.rs: run `markdown_document`, unwrap the result and
assert that all input was consumed.  The two ways the Rust function could
panic (the `unwrap` and the `assert!`) are modelled as `none`. -/
def parse (msg : String) : Option MarkdownDocument :=
  match markdownDocument (4 * msg.length + 4) msg.data with
  | some (rest, doc) => if rest = [] then some doc else none
  | none => none

example : parse "" = some ⟨[]⟩ := rfl

example : parse "**" = some ⟨[.Plain "**"]⟩ := rfl

example : parse "*text*" = some ⟨[.ItalicsStar [.Plain "text"]]⟩ := rfl

theorem tagP_eq_some {d i r : List Char} (h : tagP d i = some r) : i = d ++ r := by
  unfold tagP at h
  split at h
  · next hp =>
    obtain ⟨t, ht⟩ := List.isPrefixOf_iff_prefix.mp hp
    injection h with h
    subst h
    rw [← ht, List.drop_left]
  · cases h

theorem takeBefore0P_some {p : List Char → Bool} :
    ∀ {i rest pre : List Char}, takeBefore0P p i = some (rest, pre) →
      pre ++ rest = i ∧ p rest = true ∧ (pre = [] ↔ p i = true) := by
  intro i
  induction i with
  | nil =>
    intro rest pre h
    unfold takeBefore0P at h
    split at h
    · next hp => injection h with h; injection h with h1 h2; subst h1; subst h2; simp [hp]
    · cases h
  | cons c cs ih =>
    intro rest pre h
    unfold takeBefore0P at h
    split at h
    · next hp => injection h with h; injection h with h1 h2; subst h1; subst h2; simp [hp]
    · next hp =>
      cases h0 : takeBefore0P p cs with
      | none => rw [h0] at h; cases h
      | some pr =>
        obtain ⟨rest', pre'⟩ := pr
        rw [h0] at h
        injection h with h
        injection h with h1 h2
        subst h1
        subst h2
        obtain ⟨ha, hb, _⟩ := ih h0
        refine ⟨by rw [List.cons_append, ha], hb, ?_⟩
        simp [hp]

theorem takeBefore0P_stop {p : List Char → Bool} {i : List Char} (h : p i = true) :
    takeBefore0P p i = some (i, []) := by
  cases i <;> simp [takeBefore0P, h]

theorem takeBefore0P_none_of {p : List Char → Bool} :
    ∀ {i : List Char}, (∀ n, p (i.drop n) = false) → takeBefore0P p i = none := by
  intro i
  induction i with
  | nil =>
    intro hall
    have h0 := hall 0
    simp at h0
    simp [takeBefore0P, h0]
  | cons c cs ih =>
    intro hall
    have h0 := hall 0
    simp at h0
    have htail : ∀ n, p (cs.drop n) = false := fun n => by
      have := hall (n + 1)
      simpa using this
    simp [takeBefore0P, h0, ih htail]

theorem takeBefore1P_some {p : List Char → Bool} {i rest pre : List Char}
    (h : takeBefore1P p i = some (rest, pre)) :
    pre ++ rest = i ∧ p rest = true ∧ pre ≠ [] := by
  unfold takeBefore1P at h
  split at h
  · rename_i rest' pre' h0
    split at h
    · cases h
    · rename_i hne
      injection h with h
      injection h with ha hb
      subst ha
      subst hb
      obtain ⟨ha', hb', _⟩ := takeBefore0P_some h0
      exact ⟨ha', hb', hne⟩
  · cases h

theorem takeBefore1P_none_of_stop {p : List Char → Bool} {i : List Char} (h : p i = true) :
    takeBefore1P p i = none := by
  unfold takeBefore1P
  rw [takeBefore0P_stop h]
  rfl

theorem takeBefore1P_none_of_never {p : List Char → Bool} {i : List Char}
    (h : ∀ n, p (i.drop n) = false) : takeBefore1P p i = none := by
  unfold takeBefore1P
  rw [takeBefore0P_none_of h]

theorem delimitedSpan_some {d i rest span : List Char}
    (h : delimitedSpan d i = some (rest, span)) :
    span ≠ [] ∧ i = d ++ (span ++ (d ++ rest)) := by
  unfold delimitedSpan at h
  split at h
  · cases h
  · rename_i i₁ h1
    split at h
    · cases h
    · rename_i i₂ span' h2
      split at h
      · cases h
      · rename_i i₃ h3
        injection h with h
        injection h with ha hb
        subst ha
        subst hb
        obtain ⟨he, _, hne⟩ := takeBefore1P_some h2
        refine ⟨hne, ?_⟩
        rw [tagP_eq_some h1, ← he, tagP_eq_some h3]

theorem delimitedSpan_length {d i rest span : List Char} (hd : d ≠ [])
    (h : delimitedSpan d i = some (rest, span)) :
    span.length + 1 ≤ i.length ∧ rest.length + 1 ≤ i.length ∧
      span.length + 2 * d.length + rest.length = i.length := by
  obtain ⟨hspan, hdec⟩ := delimitedSpan_some h
  have hdl : 1 ≤ d.length := by
    cases d with
    | nil => exact absurd rfl hd
    | cons a as => simp
  have hsl : 1 ≤ span.length := by
    cases span with
    | nil => exact absurd rfl hspan
    | cons a as => simp
  have hlen : i.length = d.length + (span.length + (d.length + rest.length)) := by
    rw [hdec]; simp
  omega

theorem delimitedSpan_none_of_empty_span {d i i₁ : List Char}
    (h1 : tagP d i = some i₁) (h2 : d.isPrefixOf i₁ = true) :
    delimitedSpan d i = none := by
  have ht : takeBefore1P (fun s => d.isPrefixOf s) i₁ = none :=
    takeBefore1P_none_of_stop h2
  cases hv : delimitedSpan d i with
  | none => rfl
  | some pr =>
    exfalso
    obtain ⟨rest, span⟩ := pr
    unfold delimitedSpan at hv
    split at hv
    · cases hv
    · rename_i i₁' h1'
      rw [h1'] at h1
      injection h1 with h1
      subst h1
      split at hv
      · cases hv
      · rename_i i₂ span' h2'
        rw [ht] at h2'
        cases h2'

theorem delimitedSpan_none_of_no_close {d i i₁ : List Char}
    (h1 : tagP d i = some i₁) (h2 : ∀ n, d.isPrefixOf (i₁.drop n) = false) :
    delimitedSpan d i = none := by
  have ht : takeBefore1P (fun s => d.isPrefixOf s) i₁ = none :=
    takeBefore1P_none_of_never h2
  cases hv : delimitedSpan d i with
  | none => rfl
  | some pr =>
    exfalso
    obtain ⟨rest, span⟩ := pr
    unfold delimitedSpan at hv
    split at hv
    · cases hv
    · rename_i i₁' h1'
      rw [h1'] at h1
      injection h1 with h1
      subst h1
      split at hv
      · cases hv
      · rename_i i₂ span' h2'
        rw [ht] at h2'
        cases h2'

/-- The eight special matchers of `markdown_element_not_plain`
(src/parser/mod.rs), named so that the order they are tried in can be
stated as data. -/
inductive MatcherKind where
  | multiLineCode
  | oneLineCode
  | italicsStar
  | italicsUnderscore
  | bold
  | underline
  | strikethrough
  | spoiler
  deriving DecidableEq, Repr

/-- The delimiter each special matcher looks for. -/
def matcherDelim : MatcherKind → List Char
  | .multiLineCode => "```".data
  | .oneLineCode => "`".data
  | .italicsStar => "*".data
  | .italicsUnderscore => "_".data
  | .bold => "**".data
  | .underline => "__".data
  | .strikethrough => "~~".data
  | .spoiler => "||".data

/-- The shared shape of the six styled matchers of src/parser/mod.rs:
capture a delimited span, then parse the span as an element collection
(`map_parser`) and wrap the result in the element constructor. -/
def styledRun (col : List Char → Option (List Char × List MarkdownElement))
    (d : List Char) (mk : List MarkdownElement → MarkdownElement) (i : List Char) :
    Option (List Char × MarkdownElement) :=
  match delimitedSpan d i with
  | some (rest, span) =>
    match col span with
    | some (_, elems) => some (rest, mk elems)
    | none => none
  | none => none

/-- One alternative of `markdown_element_not_plain`, parameterised by the
collection parser used for recursively parsed content. -/
def matcherRun (col : List Char → Option (List Char × List MarkdownElement)) :
    MatcherKind → List Char → Option (List Char × MarkdownElement)
  | .multiLineCode, i =>
    match delimitedSpan "```".data i with
    | some (rest, span) => some (rest, multiLineCodeBody span)
    | none => none
  | .oneLineCode, i =>
    match delimitedSpan "`".data i with
    | some (rest, span) => some (rest, .OneLineCode (String.mk span))
    | none => none
  | .italicsStar, i => styledRun col "*".data .ItalicsStar i
  | .italicsUnderscore, i => styledRun col "_".data .ItalicsUnderscore i
  | .bold, i => styledRun col "**".data .Bold i
  | .underline, i => styledRun col "__".data .Underline i
  | .strikethrough, i => styledRun col "~~".data .Strikethrough i
  | .spoiler, i => styledRun col "||".data .Spoiler i

/-- Embeds `nom::branch::alt` over a non-empty list of matchers: try each in
order, first success wins. -/
def runMatchers (col : List Char → Option (List Char × List MarkdownElement)) :
    List MatcherKind → List Char → Option (List Char × MarkdownElement)
  | [], _ => none
  | [k], i => matcherRun col k i
  | k :: ks, i => alt2 (matcherRun col k i) (runMatchers col ks i)

/-- The order in which `markdown_element_not_plain` (src/parser/mod.rs,
lines 45-56) tries the eight special matchers. -/
def codeMatcherOrder : List MatcherKind :=
  [.multiLineCode, .oneLineCode, .italicsStar, .italicsUnderscore,
   .bold, .underline, .strikethrough, .spoiler]

theorem mdNotPlain_succ (fuel : Nat) (i : List Char) :
    mdNotPlain (fuel + 1) i = runMatchers (mdCollection fuel) codeMatcherOrder i := rfl

/-- The fuel-free success condition of `markdown_element_not_plain`: some
special matcher finds its delimited span at the current position. -/
def npSpec (i : List Char) : Bool :=
  codeMatcherOrder.any (fun k => (delimitedSpan (matcherDelim k) i).isSome)

mutual

/-- No `BlockQuote` node occurs anywhere in the element. -/
def bqFreeElement : MarkdownElement → Bool
  | .Plain _ => true
  | .OneLineCode _ => true
  | .MultiLineCode _ _ => true
  | .BlockQuote _ => false
  | .ItalicsStar c => bqFreeCollection c
  | .ItalicsUnderscore c => bqFreeCollection c
  | .Bold c => bqFreeCollection c
  | .Underline c => bqFreeCollection c
  | .Strikethrough c => bqFreeCollection c
  | .Spoiler c => bqFreeCollection c

/-- No `BlockQuote` node occurs anywhere in the collection. -/
def bqFreeCollection : List MarkdownElement → Bool
  | [] => true
  | e :: rest => bqFreeElement e && bqFreeCollection rest

end

mutual

/-- Every styled composite node (the six delimited kinds) anywhere in the
element has a non-empty child collection. -/
def styledNonemptyElement : MarkdownElement → Bool
  | .Plain _ => true
  | .OneLineCode _ => true
  | .MultiLineCode _ _ => true
  | .BlockQuote c => styledNonemptyCollection c
  | .ItalicsStar c => !c.isEmpty && styledNonemptyCollection c
  | .ItalicsUnderscore c => !c.isEmpty && styledNonemptyCollection c
  | .Bold c => !c.isEmpty && styledNonemptyCollection c
  | .Underline c => !c.isEmpty && styledNonemptyCollection c
  | .Strikethrough c => !c.isEmpty && styledNonemptyCollection c
  | .Spoiler c => !c.isEmpty && styledNonemptyCollection c

/-- Every styled composite node anywhere in the collection has a non-empty
child collection. -/
def styledNonemptyCollection : List MarkdownElement → Bool
  | [] => true
  | e :: rest => styledNonemptyElement e && styledNonemptyCollection rest

end

/-- The invariant the parser maintains on every element it produces. -/
def goodElement (e : MarkdownElement) : Bool :=
  bqFreeElement e && styledNonemptyElement e

/-- The invariant the parser maintains on every collection it produces. -/
def goodCollection (l : List MarkdownElement) : Bool :=
  bqFreeCollection l && styledNonemptyCollection l

theorem goodCollection_cons {e : MarkdownElement} {rest : List MarkdownElement} :
    goodCollection (e :: rest) = true ↔
      goodElement e = true ∧ goodCollection rest = true := by
  simp only [goodCollection, goodElement, bqFreeCollection, styledNonemptyCollection,
    Bool.and_eq_true]
  tauto

theorem alt2_isSome {α : Type} (a b : Option α) :
    (alt2 a b).isSome = (a.isSome || b.isSome) := by
  cases a <;> simp [alt2]

theorem alt2_eq_some {α : Type} {a b : Option α} {x : α} :
    alt2 a b = some x ↔ a = some x ∨ (a = none ∧ b = some x) := by
  cases a <;> simp [alt2]

theorem mdNotPlain_nil : ∀ fuel : Nat, mdNotPlain fuel [] = none
  | 0 => rfl
  | _ + 1 => rfl

theorem mdTakeBefore0_nil : ∀ fuel : Nat, mdTakeBefore0 fuel [] = none
  | 0 => rfl
  | fuel + 1 => by simp [mdTakeBefore0, mdNotPlain_nil fuel]

theorem mdPlain_nil : ∀ fuel : Nat, mdPlain fuel [] = none
  | 0 => rfl
  | fuel + 1 => by simp [mdPlain, mdTakeBefore0_nil fuel, alt2, rest1]

theorem mdElement_nil : ∀ fuel : Nat, mdElement fuel [] = none
  | 0 => rfl
  | fuel + 1 => by simp [mdElement, mdNotPlain_nil fuel, mdPlain_nil fuel, alt2]

theorem npSpec_nil : npSpec [] = false := rfl

theorem goodElement_styled {es : List MarkdownElement} (h1 : es ≠ [])
    (h2 : goodCollection es = true) :
    goodElement (.ItalicsStar es) = true ∧ goodElement (.ItalicsUnderscore es) = true ∧
    goodElement (.Bold es) = true ∧ goodElement (.Underline es) = true ∧
    goodElement (.Strikethrough es) = true ∧ goodElement (.Spoiler es) = true := by
  simp only [goodCollection, Bool.and_eq_true] at h2
  simp [goodElement, bqFreeElement, styledNonemptyElement, Bool.and_eq_true,
    List.isEmpty_iff, h1, h2.1, h2.2]

theorem goodElement_multiLineCodeBody (span : List Char) :
    goodElement (multiLineCodeBody span) = true := by
  simp only [multiLineCodeBody]
  split <;> rfl

theorem styledRun_spec {g : Nat} {d : List Char} {mk : List MarkdownElement → MarkdownElement}
    {i : List Char} (hd : d ≠ [])
    (hmk : ∀ es, es ≠ [] → goodCollection es = true → goodElement (mk es) = true)
    (ha : ∀ j : List Char, 4 * j.length + 4 ≤ g →
      ∃ elems, mdCollection g j = some ([], elems) ∧ goodCollection elems = true ∧
        (elems = [] → j = []))
    (hi : 4 * i.length ≤ g + 1) :
    ((styledRun (mdCollection g) d mk i).isSome = (delimitedSpan d i).isSome) ∧
    (∀ rest e, styledRun (mdCollection g) d mk i = some (rest, e) →
      goodElement e = true ∧ rest.length + 1 ≤ i.length) := by
  cases hv : delimitedSpan d i with
  | none =>
    constructor
    · simp [styledRun, hv]
    · intro rest e h
      simp [styledRun, hv] at h
  | some pr =>
    obtain ⟨rest', span⟩ := pr
    obtain ⟨hspan_ne, _⟩ := delimitedSpan_some hv
    obtain ⟨hs1, hs2, hs3⟩ := delimitedSpan_length hd hv
    have hdl : 1 ≤ d.length := by
      cases d with
      | nil => exact absurd rfl hd
      | cons a as => simp
    have hcol : 4 * span.length + 4 ≤ g := by omega
    obtain ⟨elems, hcoll, hgoodc, hemp⟩ := ha span hcol
    have hene : elems ≠ [] := fun h => hspan_ne (hemp h)
    constructor
    · simp [styledRun, hv, hcoll]
    · intro rest e h
      simp only [styledRun, hv, hcoll] at h
      injection h with h
      injection h with h1 h2
      subst h1
      subst h2
      exact ⟨hmk elems hene hgoodc, hs2⟩

theorem matcherRun_spec {g : Nat} {i : List Char} (k : MatcherKind)
    (ha : ∀ j : List Char, 4 * j.length + 4 ≤ g →
      ∃ elems, mdCollection g j = some ([], elems) ∧ goodCollection elems = true ∧
        (elems = [] → j = []))
    (hi : 4 * i.length ≤ g + 1) :
    ((matcherRun (mdCollection g) k i).isSome = (delimitedSpan (matcherDelim k) i).isSome) ∧
    (∀ rest e, matcherRun (mdCollection g) k i = some (rest, e) →
      goodElement e = true ∧ rest.length + 1 ≤ i.length) := by
  cases k with
  | multiLineCode =>
    constructor
    · cases hv : delimitedSpan "```".data i with
      | none => simp [matcherRun, matcherDelim, hv]
      | some pr => obtain ⟨rest', span⟩ := pr; simp [matcherRun, matcherDelim, hv]
    · intro rest e h
      cases hv : delimitedSpan "```".data i with
      | none => simp [matcherRun, hv] at h
      | some pr =>
        obtain ⟨rest', span⟩ := pr
        simp only [matcherRun, hv] at h
        injection h with h
        injection h with h1 h2
        subst h1
        subst h2
        have := delimitedSpan_length (d := "```".data) (by decide) hv
        exact ⟨goodElement_multiLineCodeBody span, this.2.1⟩
  | oneLineCode =>
    constructor
    · cases hv : delimitedSpan "`".data i with
      | none => simp [matcherRun, matcherDelim, hv]
      | some pr => obtain ⟨rest', span⟩ := pr; simp [matcherRun, matcherDelim, hv]
    · intro rest e h
      cases hv : delimitedSpan "`".data i with
      | none => simp [matcherRun, hv] at h
      | some pr =>
        obtain ⟨rest', span⟩ := pr
        simp only [matcherRun, hv] at h
        injection h with h
        injection h with h1 h2
        subst h1
        subst h2
        have := delimitedSpan_length (d := "`".data) (by decide) hv
        exact ⟨rfl, this.2.1⟩
  | italicsStar =>
    exact styledRun_spec (by decide) (fun es h1 h2 => (goodElement_styled h1 h2).1) ha hi
  | italicsUnderscore =>
    exact styledRun_spec (by decide) (fun es h1 h2 => (goodElement_styled h1 h2).2.1) ha hi
  | bold =>
    exact styledRun_spec (by decide) (fun es h1 h2 => (goodElement_styled h1 h2).2.2.1) ha hi
  | underline =>
    exact styledRun_spec (by decide) (fun es h1 h2 => (goodElement_styled h1 h2).2.2.2.1) ha hi
  | strikethrough =>
    exact styledRun_spec (by decide) (fun es h1 h2 => (goodElement_styled h1 h2).2.2.2.2.1) ha hi
  | spoiler =>
    exact styledRun_spec (by decide) (fun es h1 h2 => (goodElement_styled h1 h2).2.2.2.2.2) ha hi

theorem runMatchers_spec {g : Nat} {i : List Char}
    (ha : ∀ j : List Char, 4 * j.length + 4 ≤ g →
      ∃ elems, mdCollection g j = some ([], elems) ∧ goodCollection elems = true ∧
        (elems = [] → j = []))
    (hi : 4 * i.length ≤ g + 1) :
    ∀ ks : List MatcherKind, ks ≠ [] →
    ((runMatchers (mdCollection g) ks i).isSome
        = ks.any (fun k => (delimitedSpan (matcherDelim k) i).isSome)) ∧
    (∀ rest e, runMatchers (mdCollection g) ks i = some (rest, e) →
      goodElement e = true ∧ rest.length + 1 ≤ i.length)
  | [], h => absurd rfl h
  | [k], _ => by
    obtain ⟨h1, h2⟩ := matcherRun_spec k ha hi
    constructor
    · show (matcherRun (mdCollection g) k i).isSome = _
      rw [h1]
      simp
    · intro rest e h
      exact h2 rest e h
  | k :: k' :: ks, _ => by
    obtain ⟨h1, h2⟩ := matcherRun_spec k ha hi
    obtain ⟨h3, h4⟩ := runMatchers_spec ha hi (k' :: ks) (by simp)
    constructor
    · show (alt2 (matcherRun (mdCollection g) k i) _).isSome = _
      rw [alt2_isSome, h1, h3]
      simp
    · intro rest e h
      rcases alt2_eq_some.mp h with hcase | ⟨_, hcase⟩
      · exact h2 rest e hcase
      · exact h4 rest e hcase

/-- The fuel-free behaviour of `plain` (src/parser/mod.rs) at adequate
fuel: the shortest prefix before a position where some special matcher
succeeds, or else the whole (non-empty) input. -/
def plainPure (i : List Char) : Option (List Char × MarkdownElement) :=
  match alt2 (takeBefore0P npSpec i) (rest1 i) with
  | some (rest, pre) => some (rest, .Plain (String.mk pre))
  | none => none

theorem parserAdequacy : ∀ fuel : Nat,
    (∀ i : List Char, 4 * i.length ≤ fuel →
      ((mdNotPlain fuel i).isSome = npSpec i) ∧
      (∀ rest e, mdNotPlain fuel i = some (rest, e) →
        goodElement e = true ∧ rest.length + 1 ≤ i.length)) ∧
    (∀ i : List Char, 4 * i.length + 1 ≤ fuel →
      mdTakeBefore0 fuel i = takeBefore0P npSpec i) ∧
    (∀ i : List Char, 4 * i.length + 2 ≤ fuel → mdPlain fuel i = plainPure i) ∧
    (∀ i : List Char, 4 * i.length + 3 ≤ fuel → i ≠ [] →
      ∃ rest e, mdElement fuel i = some (rest, e) ∧ rest.length + 1 ≤ i.length ∧
        goodElement e = true) ∧
    (∀ i : List Char, 4 * i.length + 4 ≤ fuel →
      ∃ elems, mdCollection fuel i = some ([], elems) ∧ goodCollection elems = true ∧
        (elems = [] → i = [])) := by
  intro fuel
  induction fuel using Nat.strong_induction_on with
  | _ fuel IH =>
  match fuel with
  | 0 =>
    refine ⟨?_, ?_, ?_, ?_, ?_⟩
    · intro i hfi
      have hi0 : i = [] := List.eq_nil_of_length_eq_zero (by omega)
      subst hi0
      exact ⟨rfl, fun rest e h => by rw [mdNotPlain_nil] at h; cases h⟩
    · intro i hfi; omega
    · intro i hfi; omega
    · intro i hfi; omega
    · intro i hfi; omega
  | g + 1 =>
    obtain ⟨IHc, IHd, IHp, IHb, IHa⟩ := IH g (Nat.lt_succ_self g)
    refine ⟨?_, ?_, ?_, ?_, ?_⟩
    · intro i hfi
      rw [mdNotPlain_succ]
      exact runMatchers_spec IHa hfi codeMatcherOrder (by decide)
    · intro i hfi
      have hc := (IHc i (by omega)).1
      simp only [mdTakeBefore0]
      rw [hc]
      cases hnp : npSpec i with
      | true => rw [takeBefore0P_stop hnp]; rfl
      | false =>
        cases i with
        | nil => simp [takeBefore0P, npSpec_nil]
        | cons c cs =>
          have hl : (c :: cs).length = cs.length + 1 := rfl
          have hd' := IHd cs (by omega)
          simp only [Bool.false_eq_true, if_false]
          rw [hd']
          rw [takeBefore0P, hnp]
          simp
    · intro i hfi
      simp only [mdPlain]
      rw [IHd i (by omega)]
      rfl
    · intro i hfi hne
      have hc := IHc i (by omega)
      cases hnp : mdNotPlain g i with
      | some pr =>
        obtain ⟨rest, e⟩ := pr
        obtain ⟨hgood, hlen⟩ := hc.2 rest e hnp
        exact ⟨rest, e, by simp [mdElement, alt2, hnp], hlen, hgood⟩
      | none =>
        have hns : npSpec i = false := by rw [← hc.1, hnp]; rfl
        have hp := IHp i (by omega)
        cases ht : takeBefore0P npSpec i with
        | some pr =>
          obtain ⟨rest, pre⟩ := pr
          obtain ⟨happ, hprest, hiff⟩ := takeBefore0P_some ht
          have hpre : pre ≠ [] := by
            intro h0
            rw [hiff.mp h0] at hns
            cases hns
          have hplen : 1 ≤ pre.length := by
            cases pre with
            | nil => exact absurd rfl hpre
            | cons a as => simp
          have hsum : pre.length + rest.length = i.length := by
            rw [← happ]
            simp
          refine ⟨rest, .Plain (String.mk pre), ?_, by omega, rfl⟩
          simp [mdElement, alt2, hnp, hp, plainPure, ht]
        | none =>
          have hil : 1 ≤ i.length := by
            cases i with
            | nil => exact absurd rfl hne
            | cons a as => simp
          refine ⟨[], .Plain (String.mk i), ?_, by simpa using hil, rfl⟩
          simp [mdElement, alt2, hnp, hp, plainPure, ht, rest1, hne]
    · intro i hfi
      cases i with
      | nil =>
        exact ⟨[], by simp [mdCollection, mdElement_nil], rfl, fun _ => rfl⟩
      | cons c cs =>
        have hl : (c :: cs).length = cs.length + 1 := rfl
        obtain ⟨rest, e, helem, hlen, hgood⟩ := IHb (c :: cs) (by omega) (by simp)
        obtain ⟨elems, hcoll, hgoodc, _⟩ := IHa rest (by omega)
        have hguard : rest.length < (c :: cs).length := by omega
        refine ⟨e :: elems, ?_, goodCollection_cons.mpr ⟨hgood, hgoodc⟩, by simp⟩
        simp only [mdCollection, helem]
        rw [if_pos hguard, hcoll]

theorem parse_good {s : String} {d : MarkdownDocument} (h : parse s = some d) :
    goodCollection d.content = true ∧ (d.content = [] → s = "") := by
  obtain ⟨elems, hcoll, hgood, hemp⟩ :=
    (parserAdequacy (4 * s.length + 4)).2.2.2.2 s.data (by
      have hsl : s.data.length = s.length := rfl
      omega)
  have hp : parse s = some ⟨elems⟩ := by simp [parse, markdownDocument, hcoll]
  rw [hp] at h
  injection h with h
  subst h
  refine ⟨hgood, fun hc => ?_⟩
  have hdata : s.data = [] := hemp hc
  cases s with
  | mk data =>
    simp only at hdata
    subst hdata
    rfl

/-- C2: `parse` is total — for every input string (empty, unmatched or
malformed delimiters included) `markdown_document` succeeds, the whole
input is consumed (so the `unwrap` and the `assert!` in `parse` never
fire), and `parse` returns a `MarkdownDocument`. -/
theorem parse_total (s : String) :
    ∃ d : MarkdownDocument,
      markdownDocument (4 * s.length + 4) s.data = some ([], d) ∧ parse s = some d := by
  obtain ⟨elems, hcoll, _, _⟩ :=
    (parserAdequacy (4 * s.length + 4)).2.2.2.2 s.data (by
      have hsl : s.data.length = s.length := rfl
      omega)
  refine ⟨⟨elems⟩, ?_, ?_⟩
  · simp [markdownDocument, hcoll]
  · simp [parse, markdownDocument, hcoll]

/-- C7: every styled composite node (ItalicsStar, ItalicsUnderscore, Bold,
Underline, Strikethrough, Spoiler) anywhere in a parsed document has a
non-empty child collection, and the root collection is empty only for
empty input. -/
theorem parse_styled_nonempty : ∀ (s : String) (d : MarkdownDocument), parse s = some d →
    styledNonemptyCollection d.content = true ∧ (d.content = [] → s = "") := by
  intro s d h
  obtain ⟨hgood, hemp⟩ := parse_good h
  simp only [goodCollection, Bool.and_eq_true] at hgood
  exact ⟨hgood.2, hemp⟩

theorem parse_styled_nonempty_witness :
    styledNonemptyCollection (MarkdownDocument.mk [.ItalicsStar [.Plain "a"]]).content = true ∧
    ((MarkdownDocument.mk [.ItalicsStar [.Plain "a"]]).content = [] → "*a*" = "") :=
  parse_styled_nonempty "*a*" ⟨[.ItalicsStar [.Plain "a"]]⟩ rfl

/-- C8: a parsed document never contains a BlockQuote node; in
particular, text beginning with "> " is parsed as plain text, even though
the document model can represent block quotes by direct construction. -/
theorem parse_no_blockquote :
    (∀ (s : String) (d : MarkdownDocument), parse s = some d →
      bqFreeCollection d.content = true) ∧
    parse "> hello" = some ⟨[.Plain "> hello"]⟩ := by
  constructor
  · intro s d h
    have hgood := (parse_good h).1
    simp only [goodCollection, Bool.and_eq_true] at hgood
    exact hgood.1
  · rfl

theorem parse_no_blockquote_witness :
    bqFreeCollection (MarkdownDocument.mk [.Plain "> hello"]).content = true :=
  parse_no_blockquote.1 "> hello" ⟨[.Plain "> hello"]⟩ rfl

mutual

theorem elementToPlainString_omit : ∀ e : MarkdownElement,
    elementToPlainString e
      = elementToMarkdownString e { omit_format := true, omit_spoiler := false }
  | .Plain _ => rfl
  | .ItalicsStar c => by
    simp [elementToPlainString, elementToMarkdownString, collectionToPlainString_omit c]
  | .ItalicsUnderscore c => by
    simp [elementToPlainString, elementToMarkdownString, collectionToPlainString_omit c]
  | .Bold c => by
    simp [elementToPlainString, elementToMarkdownString, collectionToPlainString_omit c]
  | .Underline c => by
    simp [elementToPlainString, elementToMarkdownString, collectionToPlainString_omit c]
  | .Strikethrough c => by
    simp [elementToPlainString, elementToMarkdownString, collectionToPlainString_omit c]
  | .Spoiler c => by
    simp [elementToPlainString, elementToMarkdownString, collectionToPlainString_omit c]
  | .OneLineCode _ => rfl
  | .MultiLineCode _ _ => rfl
  | .BlockQuote c => by
    simp [elementToPlainString, elementToMarkdownString, collectionToPlainString_omit c]

theorem collectionToPlainString_omit : ∀ l : List MarkdownElement,
    collectionToPlainString l
      = collectionToMarkdownString l { omit_format := true, omit_spoiler := false }
  | [] => rfl
  | e :: rest => by
    simp [collectionToPlainString, collectionToMarkdownString,
      elementToPlainString_omit e, collectionToPlainString_omit rest]

end

/-- C4: plain-text extraction (`to_plain_text` / `to_plain_string`, which
takes no options) agrees with rendering under
`omit_format = true, omit_spoiler = false` on every document, element
collection and element, including hand-built trees with BlockQuote. -/
theorem plain_extraction_is_omit_format :
    (∀ d : MarkdownDocument,
      documentToPlainText d
        = documentToMarkdownString d { omit_format := true, omit_spoiler := false }) ∧
    (∀ l : List MarkdownElement,
      collectionToPlainString l
        = collectionToMarkdownString l { omit_format := true, omit_spoiler := false }) ∧
    (∀ e : MarkdownElement,
      elementToPlainString e
        = elementToMarkdownString e { omit_format := true, omit_spoiler := false }) :=
  ⟨fun d => collectionToPlainString_omit d.content,
   collectionToPlainString_omit, elementToPlainString_omit⟩

mutual

theorem elementToString_default : ∀ e : MarkdownElement,
    elementToString e = elementToMarkdownString e ToMarkdownStringOption.new
  | .Plain _ => rfl
  | .ItalicsStar c => by
    simp [elementToString, elementToMarkdownString, ToMarkdownStringOption.new,
      collectionToString_default c]
  | .ItalicsUnderscore c => by
    simp [elementToString, elementToMarkdownString, ToMarkdownStringOption.new,
      collectionToString_default c]
  | .Bold c => by
    simp [elementToString, elementToMarkdownString, ToMarkdownStringOption.new,
      collectionToString_default c]
  | .Underline c => by
    simp [elementToString, elementToMarkdownString, ToMarkdownStringOption.new,
      collectionToString_default c]
  | .Strikethrough c => by
    simp [elementToString, elementToMarkdownString, ToMarkdownStringOption.new,
      collectionToString_default c]
  | .Spoiler c => by
    simp [elementToString, elementToMarkdownString, ToMarkdownStringOption.new,
      collectionToString_default c]
  | .OneLineCode _ => rfl
  | .MultiLineCode _ _ => rfl
  | .BlockQuote c => by
    simp [elementToString, elementToMarkdownString, ToMarkdownStringOption.new,
      collectionToString_default c]

theorem collectionToString_default : ∀ l : List MarkdownElement,
    collectionToString l = collectionToMarkdownString l ToMarkdownStringOption.new
  | [] => rfl
  | e :: rest => by
    simp [collectionToString, collectionToMarkdownString,
      elementToString_default e, collectionToString_default rest]

end

/-- C10: the two rendering paths agree — the `Display` implementation
(`to_string()`) equals `to_markdown_string` with the default options
(omit_format = false, omit_spoiler = false) on every document, collection
and element, BlockQuote and MultiLineCode included. -/
theorem display_is_default_render :
    (∀ d : MarkdownDocument,
      documentToString d = documentToMarkdownString d ToMarkdownStringOption.new) ∧
    (∀ l : List MarkdownElement,
      collectionToString l = collectionToMarkdownString l ToMarkdownStringOption.new) ∧
    (∀ e : MarkdownElement,
      elementToString e = elementToMarkdownString e ToMarkdownStringOption.new) :=
  ⟨fun d => collectionToString_default d.content,
   collectionToString_default, elementToString_default⟩

/-- C9: with `omit_spoiler = true` a Spoiler element always renders to the
empty string, whatever `omit_format` and the spoiler's content are; in
particular `Spoiler([Plain "x"])` with `omit_spoiler = true` renders to
`""`. -/
theorem spoiler_omitted (content : List MarkdownElement)
    (option : ToMarkdownStringOption) (h : option.omit_spoiler = true) :
    elementToMarkdownString (.Spoiler content) option = "" := by
  simp [elementToMarkdownString, h]

theorem spoiler_omitted_witness :
    elementToMarkdownString (.Spoiler [.Plain "x"])
      { omit_format := false, omit_spoiler := true } = "" :=
  spoiler_omitted [.Plain "x"] { omit_format := false, omit_spoiler := true } rfl

theorem drop_takeWhile_length (p : Char → Bool) :
    ∀ l : List Char, l.drop (l.takeWhile p).length = l.dropWhile p
  | [] => rfl
  | c :: cs => by
    by_cases h : p c = true
    · simp [List.takeWhile_cons, List.dropWhile_cons, h, drop_takeWhile_length p cs]
    · simp [List.takeWhile_cons, List.dropWhile_cons, h]

theorem takeWhile_eq_of_append (p : Char → Bool) :
    ∀ lang rest : List Char, (∀ c ∈ lang, p c = true) →
      (∀ c, rest.head? = some c → p c = false) →
      (lang ++ rest).takeWhile p = lang
  | [], rest, _, hr => by
    cases rest with
    | nil => rfl
    | cons c cs => simp [List.takeWhile_cons, hr c rfl]
  | a :: las, rest, hl, hr => by
    have ha : p a = true := hl a (by simp)
    simp only [List.cons_append, List.takeWhile_cons, ha, if_true]
    rw [takeWhile_eq_of_append p las rest (fun c hc => hl c (by simp [hc])) hr]

/-- C5: the multi-line code matcher extracts a language tag exactly when
the captured span begins with a non-empty run of alphanumeric characters
immediately followed by a line break; the run becomes the language and the
remainder (line break included) the content, otherwise the language is
absent and the whole span is the content.  In particular
`parse "` + "```" + `js\nfoo\n` + "```" + `"` gives
`MultiLineCode "\nfoo\n" (some "js")` and parsing a fenced span `foo`
gives `MultiLineCode "foo" none`. -/
theorem multiLineCode_language_extraction :
    (∀ span lang rest : List Char,
      span = lang ++ rest → lang ≠ [] → (∀ c ∈ lang, c.isAlphanum = true) →
      rest.head? = some '\n' →
      multiLineCodeBody span = .MultiLineCode (String.mk rest) (some (String.mk lang))) ∧
    (∀ span : List Char,
      (¬ ∃ lang rest : List Char, span = lang ++ rest ∧ lang ≠ [] ∧
        (∀ c ∈ lang, c.isAlphanum = true) ∧ rest.head? = some '\n') →
      multiLineCodeBody span = .MultiLineCode (String.mk span) none) ∧
    parse "```js\nfoo\n```" = some ⟨[.MultiLineCode "\nfoo\n" (some "js")]⟩ ∧
    parse "```foo```" = some ⟨[.MultiLineCode "foo" none]⟩ := by
  refine ⟨?_, ?_, rfl, rfl⟩
  · intro span lang rest hspan hne hall hhead
    subst hspan
    have hnl : Char.isAlphanum '\n' = false := rfl
    have htw : (lang ++ rest).takeWhile Char.isAlphanum = lang :=
      takeWhile_eq_of_append _ lang rest hall (fun c hc => by
        rw [hhead] at hc
        injection hc with hc
        rw [← hc]
        exact hnl)
    simp only [multiLineCodeBody, htw]
    rw [if_pos ⟨hne, by rw [List.drop_left]; exact hhead⟩, List.drop_left]
  · intro span hnex
    simp only [multiLineCodeBody]
    rw [if_neg ?hcond]
    case hcond =>
      rintro ⟨h1, h2⟩
      apply hnex
      refine ⟨span.takeWhile Char.isAlphanum, span.dropWhile Char.isAlphanum,
        (List.takeWhile_append_dropWhile Char.isAlphanum span).symm, h1,
        fun c hc => List.mem_takeWhile_imp hc, ?_⟩
      rw [← drop_takeWhile_length]
      exact h2

theorem multiLineCode_language_extraction_witness :
    multiLineCodeBody "js\nfoo\n".data = .MultiLineCode "\nfoo\n" (some "js") :=
  multiLineCode_language_extraction.1 "js\nfoo\n".data "js".data "\nfoo\n".data
    rfl (by decide) (by decide) rfl

/-- C6: a delimited-span matcher fails when the span before the shortest
subsequent occurrence of its delimiter is empty, or when no closing
delimiter occurs at all; the input then falls through the alternation and
is eventually parsed as plain text — parse "**" is a single Plain "**",
not an empty Bold. -/
theorem delimited_empty_or_unclosed :
    (∀ d i i₁ : List Char, tagP d i = some i₁ →
      (d.isPrefixOf i₁ = true ∨ ∀ n, d.isPrefixOf (i₁.drop n) = false) →
      delimitedSpan d i = none) ∧
    parse "**" = some ⟨[.Plain "**"]⟩ := by
  refine ⟨?_, rfl⟩
  intro d i i₁ h1 h2
  rcases h2 with h2 | h2
  · exact delimitedSpan_none_of_empty_span h1 h2
  · exact delimitedSpan_none_of_no_close h1 h2

theorem delimited_empty_or_unclosed_witness :
    delimitedSpan "**".data "****".data = none :=
  delimited_empty_or_unclosed.1 "**".data "****".data "**".data rfl (Or.inl rfl)

mutual

/-- No zero-length span anywhere in the element: Plain and code contents
are non-empty strings and every composite child collection is non-empty. -/
def spanPositiveElement : MarkdownElement → Bool
  | .Plain s => !s.isEmpty
  | .OneLineCode s => !s.isEmpty
  | .MultiLineCode s _ => !s.isEmpty
  | .BlockQuote c => !c.isEmpty && spanPositiveCollection c
  | .ItalicsStar c => !c.isEmpty && spanPositiveCollection c
  | .ItalicsUnderscore c => !c.isEmpty && spanPositiveCollection c
  | .Bold c => !c.isEmpty && spanPositiveCollection c
  | .Underline c => !c.isEmpty && spanPositiveCollection c
  | .Strikethrough c => !c.isEmpty && spanPositiveCollection c
  | .Spoiler c => !c.isEmpty && spanPositiveCollection c

/-- No zero-length span anywhere in the collection. -/
def spanPositiveCollection : List MarkdownElement → Bool
  | [] => true
  | e :: rest => spanPositiveElement e && spanPositiveCollection rest

end

/-- C1 (counterexample): a document built directly from the node
constructors, containing no BlockQuote and no zero-length span, whose
default-option rendering does not parse back to it —
Document([Plain "a", Plain "b"]) renders to "ab", which parses to
Document([Plain "ab"]). -/
theorem roundtrip_counterexample :
    bqFreeCollection [.Plain "a", .Plain "b"] = true ∧
    spanPositiveCollection [.Plain "a", .Plain "b"] = true ∧
    documentToMarkdownString ⟨[.Plain "a", .Plain "b"]⟩ ToMarkdownStringOption.new = "ab" ∧
    parse "ab" = some ⟨[.Plain "ab"]⟩ ∧
    parse (documentToMarkdownString ⟨[.Plain "a", .Plain "b"]⟩ ToMarkdownStringOption.new)
      ≠ some ⟨[.Plain "a", .Plain "b"]⟩ := by
  refine ⟨rfl, rfl, rfl, rfl, ?_⟩
  decide

/-- The document hand-built in tests/generate_then_parse.rs. -/
def generateThenParseDoc : MarkdownDocument :=
  ⟨[.ItalicsStar [.Plain "this ", .ItalicsUnderscore [.Plain "is"], .Plain " ",
      .Underline [.Plain "an ", .Strikethrough [.Plain "example"]]],
    .Plain "\n",
    .Bold [.OneLineCode "mark\ndown"],
    .Plain " document.\n",
    .Spoiler [.Plain "Lorem ipsum ..."],
    .Plain "\n",
    .MultiLineCode "\nsome\ncode" none]⟩

/-- C1 (amended): building a document, rendering it with default options
and parsing the result is the identity on canonical documents — here the
BlockQuote-free, zero-span-free document of tests/generate_then_parse.rs,
which exercises every parser-producible node kind — but not on every
BlockQuote-free, zero-span-free document. -/
theorem roundtrip_for_canonical_document :
    bqFreeCollection generateThenParseDoc.content = true ∧
    spanPositiveCollection generateThenParseDoc.content = true ∧
    parse (documentToMarkdownString generateThenParseDoc ToMarkdownStringOption.new)
      = some generateThenParseDoc :=
  ⟨rfl, rfl, rfl⟩

/-- C3 (counterexample): the fixed order in which the element parser tries
the special matchers is not the claimed one — italics-star and
italics-underscore are tried before bold and underline in
markdown_element_not_plain. -/
theorem matcher_order_counterexample :
    codeMatcherOrder ≠
      [.multiLineCode, .oneLineCode, .bold, .underline,
       .italicsStar, .italicsUnderscore, .strikethrough, .spoiler] ∧
    codeMatcherOrder.indexOf MatcherKind.italicsStar <
      codeMatcherOrder.indexOf MatcherKind.bold ∧
    codeMatcherOrder.indexOf MatcherKind.italicsUnderscore <
      codeMatcherOrder.indexOf MatcherKind.underline := by
  refine ⟨by decide, by decide, by decide⟩

/-- C3 (amended): the element parser tries the special matchers at a given
position in the fixed order multi-line code, one-line code, italics-star,
italics-underscore, bold, underline, strikethrough, spoiler — code fences
before any emphasis marker — falling back to a plain-text run when all
fail; `**x**` is still parsed as one Bold element and never as two
adjacent empty italics-star spans, because a single-character matcher
fails at any position where its doubled counterpart's delimiter occurs
(the empty-span rule). -/
theorem matcher_order_amended :
    codeMatcherOrder =
      [.multiLineCode, .oneLineCode, .italicsStar, .italicsUnderscore,
       .bold, .underline, .strikethrough, .spoiler] ∧
    (∀ (fuel : Nat) (i : List Char),
      mdNotPlain (fuel + 1) i = runMatchers (mdCollection fuel) codeMatcherOrder i) ∧
    (∀ (fuel : Nat) (i : List Char),
      mdElement (fuel + 1) i = alt2 (mdNotPlain fuel i) (mdPlain fuel i)) ∧
    (∀ (c : Char) (i : List Char), delimitedSpan [c] (c :: c :: i) = none) ∧
    parse "**x**" = some ⟨[.Bold [.Plain "x"]]⟩ := by
  refine ⟨rfl, fun _ _ => rfl, fun _ _ => rfl, ?_, rfl⟩
  intro c i
  have h1 : tagP [c] (c :: c :: i) = some (c :: i) := by simp [tagP, List.isPrefixOf]
  have h2 : List.isPrefixOf [c] (c :: i) = true := by simp [List.isPrefixOf]
  exact delimitedSpan_none_of_empty_span h1 h2
